import Mathlib

/-!
Shallow embedding of the data aggregation and derived-metrics engine of the
Personal-Expenses-Analysis dashboard, together with proofs about it.

The embedding follows the JavaScript source:
* `src/utils/dataProcessor.js`   — `filterData`, `calculateMetrics`
* `src/utils/analysisTools.js`   — `getAggregatedStats`, `filterByDateRange`
* `src/components/InsightCards.jsx`          — top spending day, category streak
* `src/components/charts/CalendarHeatmap.jsx` — `calculateCorrelation`
* `src/components/charts/TrendLine.jsx`       — 10-day moving average
* `ExpenseHeatmap` component                  — quantile outlier threshold

Numbers are modelled by `ℚ` (JavaScript numbers, exact semantics); the final
Pearson-correlation value, which divides by a square root, lives in `ℝ`.
Calendar dates are modelled at day granularity, as the engine only ever
compares dates through `format(..., 'yyyy-MM-dd')`, `getFullYear`, `getMonth`
or epoch-millisecond order, all of which agree with lexicographic
(year, month, day) order.
-/

namespace Expenses

/-- Calendar date at day granularity.  `month` is 0-indexed, matching
JavaScript `Date.getMonth()`.  Lexicographic (year, month, day) order agrees
with the epoch-millisecond order used by the source's comparators and with
the lexicographic order of `yyyy-MM-dd` keys. -/
structure CalDate where
  year : ℕ
  month : ℕ
  day : ℕ
deriving DecidableEq

/-- Boolean date comparison, the order used by every comparator in the
source (epoch order = lexicographic on (year, month, day)). -/
def CalDate.leb (a b : CalDate) : Bool :=
  decide (a.year < b.year ∨ (a.year = b.year ∧
    (a.month < b.month ∨ (a.month = b.month ∧ a.day ≤ b.day))))

/-- Propositional version of `CalDate.leb`. -/
def CalDate.le (a b : CalDate) : Prop := CalDate.leb a b = true

instance : DecidableRel CalDate.le := fun a b =>
  inferInstanceAs (Decidable (CalDate.leb a b = true))

/-- Strict chronological order on dates. -/
def CalDate.lt (a b : CalDate) : Prop := CalDate.le a b ∧ a ≠ b

instance : IsTotal CalDate CalDate.le :=
  ⟨by
    intro a b
    simp only [CalDate.le, CalDate.leb, decide_eq_true_eq]
    omega⟩

instance : IsTrans CalDate CalDate.le :=
  ⟨by
    intro a b c hab hbc
    simp only [CalDate.le, CalDate.leb, decide_eq_true_eq] at hab hbc ⊢
    omega⟩

/-- `xs` occurs as a contiguous run inside `ys`. -/
def SegmentOf {α : Type} (xs ys : List α) : Prop :=
  ∃ pre suf, ys = pre ++ xs ++ suf

/-- A canonical transaction record, as produced by `processExcelFile`:
`Date` is the parsed date, `Expense` the positive amount, `Category` the raw
category label and `NewCategory` the mapped (broad) category. -/
structure Record where
  Date : CalDate
  Expense : ℚ
  Category : String
  NewCategory : String
  remarks : String
  Onetime : Bool
  forOthers : Bool
deriving DecidableEq

/-- The period-filter selector of `filterData` (`filters.type`).  The source
keys on the strings `'Year'`, `'Month'`, `'Day'`, `'Custom Range'`; any other
value falls through to "keep everything". -/
inductive PeriodType where
  | year
  | month
  | day
  | customRange
  | other
deriving DecidableEq

/-- The filter object of `filterData` (`src/utils/dataProcessor.js`).
`includeRent = false` corresponds to the spec's `excludeRecurringHousing`
being enabled. -/
structure Filters where
  ptype : PeriodType
  year : ℕ
  month : ℕ
  date : CalDate
  startDate : CalDate
  endDate : CalDate
  includeRent : Bool
deriving DecidableEq

/-- The "rent logic" predicate of `filterData`:
`row.Category && row.Category.toLowerCase() !== 'housing'`.
A JavaScript empty string is falsy, so an empty category is rejected too. -/
def housingOk (r : Record) : Bool :=
  decide (r.Category ≠ "" ∧ r.Category.toLower ≠ "housing")

/-- The period predicate of `filterData`'s date-filtering pass. -/
def periodOk (f : Filters) (r : Record) : Bool :=
  match f.ptype with
  | .year => decide (r.Date.year = f.year)
  | .month => decide (r.Date.year = f.year ∧ r.Date.month = f.month)
  | .day => decide (r.Date = f.date)
  | .customRange => decide (CalDate.le f.startDate r.Date ∧ CalDate.le r.Date f.endDate)
  | .other => true

/-- `filterData` from `src/utils/dataProcessor.js`: first the rent logic
(when `includeRent` is false, drop truthy-category checks failing rows),
then the period filter. -/
def filterData (data : List Record) (f : Filters) : List Record :=
  let filtered := if f.includeRent then data else data.filter housingOk
  filtered.filter (periodOk f)

/-- First-occurrence deduplication, the key-collection order of a JavaScript
object built by insertion (`if (!map[key]) map[key] = ...`). -/
def firstDedup {α : Type} [DecidableEq α] : List α → List α
  | [] => []
  | a :: t => a :: (firstDedup t).filter (fun x => decide (x ≠ a))

/-- Stable sort by a decidable relation; JavaScript `Array.prototype.sort`
with a comparator is a stable sort. -/
def sortBy {α : Type} (r : α → α → Prop) [DecidableRel r] (l : List α) : List α :=
  List.insertionSort r l

/-- Records sorted chronologically, `[...data].sort((a, b) => a.Date - b.Date)`. -/
def sortRecords (data : List Record) : List Record :=
  sortBy (fun a b => CalDate.le a.Date b.Date) data

/-- Helper: epoch-day number of a date (days since 1970-01-01), the civil
from-days algorithm; used only to identify ISO weeks the way
`format(startOfWeek(d), 'yyyy-MM-dd')` does. -/
def CalDate.epochDay (dt : CalDate) : ℤ :=
  let m := dt.month + 1
  let y := if m ≤ 2 then dt.year - 1 else dt.year
  let era := y / 400
  let yoe := y % 400
  let doy := (153 * (if 2 < m then m - 3 else m + 9) + 2) / 5 + dt.day - 1
  let doe := yoe * 365 + yoe / 4 - yoe / 100 + doy
  (era * 146097 + doe : ℤ) - 719468

/-- Epoch day of `startOfWeek(d)` (date-fns default `weekStartsOn = 0`,
Sunday); 1970-01-01 was a Thursday, so the day-of-week is `(e + 4) mod 7`. -/
def CalDate.weekStart (dt : CalDate) : ℤ :=
  dt.epochDay - (dt.epochDay + 4).emod 7

/-- Grouping selector of `getAggregatedStats` (`args.groupBy`). -/
inductive GroupBy where
  | month
  | year
  | day
  | week
  | category
deriving DecidableEq

/-- Group keys produced by the five groupings: `'yyyy-MM'` strings are the
(year, month) pair, year keys the year, `'yyyy-MM-dd'` strings the date, week
keys the epoch day of the week start, category keys the `NewCategory`. -/
inductive GKey where
  | ym (y m : ℕ)
  | yr (y : ℕ)
  | date (d : CalDate)
  | wk (z : ℤ)
  | cat (s : String)
deriving DecidableEq

/-- The key function of each grouping of `getAggregatedStats`. -/
def keyOf : GroupBy → Record → GKey
  | .month => fun r => .ym r.Date.year r.Date.month
  | .year => fun r => .yr r.Date.year
  | .day => fun r => .date r.Date
  | .week => fun r => .wk r.Date.weekStart
  | .category => fun r => .cat r.NewCategory

/-- One aggregate row `{ key, total, count }`. -/
structure Agg where
  key : GKey
  total : ℚ
  count : ℕ
deriving DecidableEq

/-- Result of `getAggregatedStats`: either a sentinel message string or the
list of aggregates. -/
inductive AggResult where
  | msg (s : String)
  | ok (l : List Agg)
deriving DecidableEq

/-- The date-range helper of `analysisTools.js`.  `now` models `new Date()`
(the default upper bound when only `startDate` is given); `⟨1970, 0, 1⟩`
models `new Date(0)`. -/
def filterByDateRange (now : CalDate) (data : List Record)
    (startDate endDate : Option CalDate) : List Record :=
  if startDate = none ∧ endDate = none then data
  else
    let s := startDate.getD ⟨1970, 0, 1⟩
    let e := endDate.getD now
    data.filter (fun r => decide (CalDate.le s r.Date ∧ CalDate.le r.Date e))

/-- `getAggregatedStats` from `src/utils/analysisTools.js`: group the
(optionally date-filtered) records by the requested key, sum `Expense` and
count per group, and sort descending by total.  Lodash `groupBy` enumerates
groups in first-occurrence order; each group holds the records with that key
in order. -/
def getAggregatedStats (now : CalDate) (data : List Record) (g : GroupBy)
    (startDate endDate : Option CalDate) : AggResult :=
  if data = [] then .msg "No data available."
  else
    let filtered := filterByDateRange now data startDate endDate
    if filtered = [] then .msg "No data found for the specified date range."
    else
      let keys := firstDedup (filtered.map (keyOf g))
      let result := keys.map (fun k =>
        let items := filtered.filter (fun r => decide (keyOf g r = k))
        Agg.mk k ((items.map Record.Expense).sum) items.length)
      .ok (sortBy (fun a b : Agg => b.total ≤ a.total) result)

/-- Accumulate an amount under a category in an insertion-ordered
association list, the JavaScript
`map[cat] = (map[cat] || 0) + expense` pattern. -/
def addTo : List (String × ℚ) → String → ℚ → List (String × ℚ)
  | [], c, v => [(c, v)]
  | (c', v') :: t, c, v =>
    if c' = c then (c', v' + v) :: t else (c', v') :: addTo t c v

/-- First entry attaining the maximal value: the `[0]` of a stable
descending sort `entries.sort((a, b) => b[1] - a[1])`, which keeps the
first-inserted entry in front on ties. -/
def topEntry : List (String × ℚ) → Option (String × ℚ)
  | [] => none
  | e :: t =>
    match topEntry t with
    | none => some e
    | some m => if e.2 < m.2 then some m else some e

/-- The distinct calendar days present in the data, sorted chronologically:
`Object.keys(dailyTopCategory).sort()` over keys inserted while walking the
date-sorted records. -/
def sortedDates (data : List Record) : List CalDate :=
  sortBy CalDate.le (firstDedup ((sortRecords data).map Record.Date))

/-- The records of one calendar day, in sorted-data order. -/
def dayRows (data : List Record) (d : CalDate) : List Record :=
  (sortRecords data).filter (fun r => decide (r.Date = d))

/-- Per-day category totals (`dailyTopCategory[dateKey]`), insertion-ordered. -/
def dayCatTotals (data : List Record) (d : CalDate) : List (String × ℚ) :=
  (dayRows data d).foldl (fun acc r => addTo acc r.NewCategory r.Expense) []

/-- The dominant mapped category of a day:
`Object.entries(dailyTopCategory[date]).sort((a, b) => b[1] - a[1])[0]?.[0]`. -/
def dayDominant (data : List Record) (d : CalDate) : Option String :=
  (topEntry (dayCatTotals data d)).map Prod.fst

/-- The mutable state of the streak scan in `InsightCards.jsx`.
`lastCategory`'s `none` models the initial JavaScript `null`;
`maxStreakCategory`'s `none` models the initial `''` placeholder (both are
falsy and never exposed once a streak has been captured). -/
structure StreakState where
  currentStreak : ℕ
  maxStreak : ℕ
  maxStreakCategory : Option String
  streakDays : List CalDate
  tempStreakDays : List CalDate
  lastCategory : Option String
deriving DecidableEq

/-- Initial streak-scan state. -/
def initStreak : StreakState :=
  ⟨0, 0, none, [], [], none⟩

/-- One iteration of the `Object.keys(dailyTopCategory).sort().forEach` loop. -/
def streakStep (s : StreakState) (d : CalDate) (topCat : Option String) : StreakState :=
  if topCat = s.lastCategory then
    { s with currentStreak := s.currentStreak + 1,
             tempStreakDays := s.tempStreakDays ++ [d] }
  else
    let s' :=
      if s.maxStreak < s.currentStreak then
        { s with maxStreak := s.currentStreak,
                 maxStreakCategory := s.lastCategory,
                 streakDays := s.tempStreakDays }
      else s
    { s' with currentStreak := 1, lastCategory := topCat, tempStreakDays := [d] }

/-- The whole `forEach` loop, day by day. -/
def scanStreak (dom : CalDate → Option String) : StreakState → List CalDate → StreakState
  | s, [] => s
  | s, d :: rest => scanStreak dom (streakStep s d (dom d)) rest

/-- The final check for the last streak after the loop. -/
def finalizeStreak (s : StreakState) : StreakState :=
  if s.maxStreak < s.currentStreak then
    { s with maxStreak := s.currentStreak,
             maxStreakCategory := s.lastCategory,
             streakDays := s.tempStreakDays }
  else s

/-- The category-streak detector of `InsightCards.jsx`, lines 41-81. -/
def categoryStreak (data : List Record) : StreakState :=
  finalizeStreak (scanStreak (dayDominant data) initStreak (sortedDates data))

/-- The loop invariant of the streak scan: the current run and the best run
recorded so far are consistent with the processed prefix of the day list —
lengths match the counters, the current run is a suffix and the best run a
contiguous segment of the processed days, and every day of either run has
the corresponding dominant category. -/
def StreakInv (dom : CalDate → Option String) (processed : List CalDate)
    (s : StreakState) : Prop :=
  s.tempStreakDays.length = s.currentStreak ∧
  s.streakDays.length = s.maxStreak ∧
  (∃ pre, processed = pre ++ s.tempStreakDays) ∧
  SegmentOf s.streakDays processed ∧
  (∀ d ∈ s.tempStreakDays, dom d = s.lastCategory) ∧
  (∀ d ∈ s.streakDays, dom d = s.maxStreakCategory)

/-- Per-day aggregation of `InsightCards.jsx` / `CalendarHeatmap.jsx`
(`dailyData` / `expenseMap`): for each distinct day in first-occurrence
order, its total and its contributing records. -/
def dailyData (data : List Record) : List (CalDate × ℚ × List Record) :=
  (firstDedup (data.map Record.Date)).map (fun d =>
    let items := data.filter (fun r => decide (r.Date = d))
    (d, (items.map Record.Expense).sum, items))

/-- The top spending day (`topDay` in `InsightCards.jsx`): the first entry of
the stable descending-by-total sort, if any. -/
def topSpendingDay (data : List Record) : Option (CalDate × ℚ × List Record) :=
  (sortBy (fun a b : CalDate × ℚ × List Record => b.2.1 ≤ a.2.1) (dailyData data)).head?

/-- The per-day (count, total) pairs of `calculateCorrelation`
(`Object.values(expenseMap)`), filtered to days with at least one item. -/
def corrEntries (data : List Record) : List (ℕ × ℚ) :=
  ((firstDedup (data.map Record.Date)).map (fun d =>
    let items := data.filter (fun r => decide (r.Date = d))
    (items.length, (items.map Record.Expense).sum))).filter
      (fun e => decide (0 < e.1))

/-- The per-day (count, total) pairs as rationals. -/
def corrPairs (data : List Record) : List (ℚ × ℚ) :=
  (corrEntries data).map (fun e => ((e.1 : ℚ), e.2))

/-- Numerator of the Pearson formula: `n * sumXY - sumX * sumY`. -/
def corrNumerator (data : List Record) : ℚ :=
  let p := corrPairs data
  let n : ℚ := p.length
  n * (p.map (fun e => e.1 * e.2)).sum - (p.map Prod.fst).sum * (p.map Prod.snd).sum

/-- The `denomVal` of `calculateCorrelation`:
`(n * sumX2 - sumX * sumX) * (n * sumY2 - sumY * sumY)`. -/
def corrDenomVal (data : List Record) : ℚ :=
  let p := corrPairs data
  let n : ℚ := p.length
  (n * (p.map (fun e => e.1 * e.1)).sum - (p.map Prod.fst).sum * (p.map Prod.fst).sum) *
    (n * (p.map (fun e => e.2 * e.2)).sum - (p.map Prod.snd).sum * (p.map Prod.snd).sum)

/-- `calculateCorrelation` from `CalendarHeatmap.jsx`: `null` with fewer than
2 days, `0` when `denomVal <= 0`, otherwise `numerator / Math.sqrt(denomVal)`. -/
noncomputable def calculateCorrelation (data : List Record) : Option ℝ :=
  if (corrEntries data).length < 2 then none
  else if corrDenomVal data ≤ 0 then some 0
  else some ((corrNumerator data : ℝ) / Real.sqrt (corrDenomVal data : ℝ))

/-- The 10-day moving average of `TrendLine.jsx`:
`values.map((val, idx, arr) => idx < 9 ? null : sum(arr.slice(idx-9, idx+1)) / 10)`. -/
def movingAvg (values : List ℚ) : List (Option ℚ) :=
  (List.range values.length).map (fun idx =>
    if idx < 9 then none
    else
      let window := (values.drop (idx - 9)).take (idx + 1 - (idx - 9))
      some (window.sum / 10))

/-- Maximum of a list of amounts, `Math.max(...expenses)`; the source only
evaluates it on non-empty data (`Math.max()` of nothing is `-Infinity`,
modelled here by the irrelevant default `0`). -/
def listMax : List ℚ → ℚ
  | [] => 0
  | a :: t => t.foldl max a

/-- `const expenses = data.map(d => d.Expense).sort((a, b) => a - b)`:
the amounts sorted ascending. -/
def sortedExpenses (amounts : List ℚ) : List ℚ :=
  sortBy (fun a b : ℚ => a ≤ b) amounts

/-- `const thresholdIndex = Math.floor(expenses.length * quantile)`. -/
def thresholdIndex (amounts : List ℚ) (quantile : ℚ) : ℤ :=
  (((sortedExpenses amounts).length : ℚ) * quantile).floor

/-- The quantile outlier threshold of the `ExpenseHeatmap` component:
`expenses[thresholdIndex] || Math.max(...expenses)` — the fallback fires when
the index is out of range (`undefined`) or the indexed value is `0` (falsy);
a negative index also reads `undefined`. -/
def quantileThreshold (amounts : List ℚ) (quantile : ℚ) : ℚ :=
  let expenses := sortedExpenses amounts
  let i := thresholdIndex amounts quantile
  match (if 0 ≤ i then expenses[i.toNat]? else none) with
  | some v => if v = 0 then listMax expenses else v
  | none => listMax expenses

/-- Helper to build a record with empty optional fields. -/
def mkRec (d : CalDate) (e : ℚ) (cat ncat : String) : Record :=
  ⟨d, e, cat, ncat, "", false, false⟩

/-- Four chronologically consecutive data-bearing days dominated by the
mapped categories A, A, B, A. -/
def streakSample : List Record :=
  [ mkRec ⟨2024, 0, 1⟩ 100 "a" "A",
    mkRec ⟨2024, 0, 2⟩ 100 "a" "A",
    mkRec ⟨2024, 0, 3⟩ 100 "b" "B",
    mkRec ⟨2024, 0, 4⟩ 100 "a" "A" ]

/-- The 100 amounts 10, 20, ..., 1000 of the quantile-threshold scenario. -/
def amounts100 : List ℚ :=
  (List.range 100).map (fun k => ((10 * (k + 1) : ℕ) : ℚ))

/-- Two records on two distinct days (for exercising the correlation path). -/
def twoDaySample : List Record :=
  [ mkRec ⟨2024, 0, 1⟩ 100 "a" "A",
    mkRec ⟨2024, 0, 2⟩ 300 "b" "B" ]

/-- A record with an empty raw category (JavaScript falsy), not "housing". -/
def emptyCatRecord : Record :=
  mkRec ⟨2024, 0, 5⟩ 50 "" "Unknown"

/-- A Year(2024) filter with `excludeRecurringHousing` enabled
(`includeRent = false`). -/
def year2024NoRent : Filters :=
  ⟨.year, 2024, 0, ⟨2024, 0, 1⟩, ⟨2024, 0, 1⟩, ⟨2024, 11, 31⟩, false⟩

/-- A fixed "current date" standing in for `new Date()`. -/
def someNow : CalDate := ⟨2026, 9, 11⟩

/-- A strictly increasing 12-value daily-total series. -/
def increasingSeries : List ℚ :=
  (List.range 12).map (fun k => ((k + 1 : ℕ) : ℚ))

/-! ### Filter-engine lemmas -/

/-- Lowercasing the empty string gives the empty string (needed because
`String.toLower` recurses on byte positions and does not evaluate by
kernel reduction). -/
theorem empty_toLower : ("" : String).toLower = "" := by
  rw [String.toLower, String.map, String.mapAux,
    dif_pos (show ("" : String).atEnd 0 = true from rfl)]

/-- Characterization of membership in the filtered output when the
recurring-housing exclusion is on. -/
theorem mem_filterData_of_excludeHousing (data : List Record) (f : Filters) (r : Record)
    (hf : f.includeRent = false) :
    r ∈ filterData data f ↔
      r ∈ data ∧ r.Category ≠ "" ∧ r.Category.toLower ≠ "housing" ∧
        periodOk f r = true := by
  unfold filterData
  rw [hf]
  simp only [Bool.false_eq_true, if_false, List.mem_filter, housingOk,
    decide_eq_true_eq]
  tauto

/-- Claim C6 (counterexample): with `excludeRecurringHousing` enabled, a
record whose raw category is the empty string — case-insensitively different
from "housing" — satisfies the Year(2024) period filter yet is removed, so
the filter does not remove exactly the "housing" records. -/
theorem filterData_empty_category_dropped :
    emptyCatRecord.Category.toLower ≠ "housing" ∧
    periodOk year2024NoRent emptyCatRecord = true ∧
    year2024NoRent.includeRent = false ∧
    filterData [emptyCatRecord] year2024NoRent = [] := by
  refine ⟨?_, by decide, rfl, by decide⟩
  show ("" : String).toLower ≠ "housing"
  rw [empty_toLower]
  decide

/-- Claim C6 (amended): with `excludeRecurringHousing` enabled, the output
consists exactly of the input records that satisfy the period filter and
whose raw category is non-empty and not case-insensitively equal to the
literal "housing". -/
theorem filterData_excludeHousing_spec (data : List Record) (f : Filters) (r : Record)
    (hf : f.includeRent = false) :
    r ∈ filterData data f ↔
      r ∈ data ∧ r.Category ≠ "" ∧ r.Category.toLower ≠ "housing" ∧
        periodOk f r = true :=
  mem_filterData_of_excludeHousing data f r hf

/-- Witness for C6's amended theorem at a concrete filter. -/
theorem filterData_excludeHousing_spec_witness :
    year2024NoRent.includeRent = false ∧
    (emptyCatRecord ∈ filterData [emptyCatRecord] year2024NoRent ↔
      emptyCatRecord ∈ [emptyCatRecord] ∧ emptyCatRecord.Category ≠ "" ∧
        emptyCatRecord.Category.toLower ≠ "housing" ∧
        periodOk year2024NoRent emptyCatRecord = true) :=
  ⟨rfl, filterData_excludeHousing_spec [emptyCatRecord] year2024NoRent emptyCatRecord rfl⟩

/-- Claim C7: `filterData` is idempotent for every filter (any period type,
either housing setting). -/
theorem filterData_idempotent (data : List Record) (f : Filters) :
    filterData (filterData data f) f = filterData data f := by
  unfold filterData
  cases hR : f.includeRent
  · simp only [Bool.false_eq_true, if_false, List.filter_filter]
    apply List.filter_congr
    intro a _
    cases h1 : housingOk a <;> cases h2 : periodOk f a <;> simp [h1, h2]
  · simp only [if_true, List.filter_filter]
    apply List.filter_congr
    intro a _
    cases h2 : periodOk f a <;> simp [h2]

/-- Claim C10: with `excludeRecurringHousing` enabled, a record whose raw
category field is empty (JavaScript falsy) never appears in the filtered
output, even though its category is not "housing". -/
theorem filterData_rejects_falsy_category (data : List Record) (f : Filters) (r : Record)
    (hf : f.includeRent = false) (hc : r.Category = "") :
    r ∉ filterData data f := by
  intro hmem
  unfold filterData at hmem
  rw [hf] at hmem
  simp only [Bool.false_eq_true, if_false, List.mem_filter, housingOk, hc,
    decide_eq_true_eq] at hmem
  exact hmem.1.2.1 rfl

/-- Witness for C10 at a concrete record and filter. -/
theorem filterData_rejects_falsy_category_witness :
    emptyCatRecord ∉ filterData [emptyCatRecord] year2024NoRent :=
  filterData_rejects_falsy_category [emptyCatRecord] year2024NoRent emptyCatRecord rfl rfl

/-! ### Aggregation: grouping preserves the total -/

/-- First-occurrence deduplication yields a sublist. -/
theorem firstDedup_sublist {α : Type} [DecidableEq α] :
    ∀ l : List α, List.Sublist (firstDedup l) l
  | [] => List.Sublist.refl []
  | a :: t => by
      rw [firstDedup]
      exact ((List.filter_sublist _).trans (firstDedup_sublist t)).cons₂ a

/-- First-occurrence deduplication preserves membership. -/
theorem mem_firstDedup {α : Type} [DecidableEq α] {x : α} :
    ∀ {l : List α}, x ∈ firstDedup l ↔ x ∈ l := by
  intro l
  induction l with
  | nil => simp [firstDedup]
  | cons a t ih =>
    rw [firstDedup]
    constructor
    · intro h
      rcases List.mem_cons.mp h with h | h
      · exact h ▸ List.mem_cons_self a t
      · exact List.mem_cons_of_mem a (ih.mp (List.mem_of_mem_filter h))
    · intro h
      rcases List.mem_cons.mp h with h | h
      · exact h ▸ List.mem_cons_self a _
      · by_cases hxa : x = a
        · exact hxa ▸ List.mem_cons_self a _
        · exact List.mem_cons_of_mem a
            (List.mem_filter.mpr ⟨ih.mpr h, by simpa using hxa⟩)

/-- First-occurrence deduplication produces no duplicates. -/
theorem nodup_firstDedup {α : Type} [DecidableEq α] :
    ∀ l : List α, (firstDedup l).Nodup
  | [] => List.nodup_nil
  | a :: t => by
      rw [firstDedup]
      refine List.nodup_cons.mpr ⟨fun hmem => ?_, (nodup_firstDedup t).filter _⟩
      have := (List.mem_filter.mp hmem).2
      simp at this

/-- Splitting a sum over a boolean predicate. -/
theorem sum_map_filter_split {α : Type} (p : α → Bool) (amt : α → ℚ) :
    ∀ l : List α,
      ((l.filter p).map amt).sum + ((l.filter (fun a => !p a)).map amt).sum
        = (l.map amt).sum
  | [] => by simp
  | a :: t => by
      have ih := sum_map_filter_split p amt t
      cases h : p a <;>
        simp [List.filter_cons, h, ← ih] <;> ring

/-- Summing group totals over a duplicate-free covering key list recovers the
total sum: grouping neither loses nor double-counts. -/
theorem sum_filter_partition {α κ : Type} [DecidableEq κ] (f : α → κ) (amt : α → ℚ) :
    ∀ K : List κ, K.Nodup → ∀ l : List α, (∀ a ∈ l, f a ∈ K) →
      (K.map (fun k => ((l.filter (fun a => decide (f a = k))).map amt).sum)).sum
        = (l.map amt).sum := by
  intro K
  induction K with
  | nil =>
    intro _ l hcov
    cases l with
    | nil => simp
    | cons a t => exact absurd (hcov a (List.mem_cons_self a t)) (List.not_mem_nil _)
  | cons k K ih =>
    intro hnd l hcov
    have hk : k ∉ K := (List.nodup_cons.mp hnd).1
    have hndK : K.Nodup := (List.nodup_cons.mp hnd).2
    have hcov' : ∀ a ∈ l.filter (fun a => !decide (f a = k)), f a ∈ K := by
      intro a ha
      rcases List.mem_filter.mp ha with ⟨haL, hpa⟩
      have hne : f a ≠ k := by simpa using hpa
      rcases List.mem_cons.mp (hcov a haL) with h | h
      · exact absurd h hne
      · exact h
    have hmapeq : ∀ k' ∈ K,
        ((l.filter (fun a => decide (f a = k'))).map amt).sum
          = (((l.filter (fun a => !decide (f a = k))).filter
              (fun a => decide (f a = k'))).map amt).sum := by
      intro k' hk'
      have hkk' : k' ≠ k := fun h => hk (h ▸ hk')
      have hfeq : List.filter (fun a => decide (f a = k') && !decide (f a = k)) l
          = List.filter (fun a => decide (f a = k')) l :=
        List.filter_congr (fun a _ => by
          by_cases h : f a = k' <;> simp [h, hkk'])
      rw [List.filter_filter, hfeq]
    rw [List.map_cons, List.sum_cons, List.map_congr_left hmapeq,
      ih hndK _ hcov']
    exact sum_map_filter_split _ amt l

/-- Claim C1: for every non-empty record list and every grouping key, the sum
of the per-group totals returned by `getAggregatedStats` (with no date
bounds) equals the sum of all record amounts. -/
theorem getAggregatedStats_preserves_total (now : CalDate) (data : List Record)
    (g : GroupBy) (hne : data ≠ []) :
    ∃ l, getAggregatedStats now data g none none = .ok l ∧
      (l.map Agg.total).sum = (data.map Record.Expense).sum := by
  have hfb : filterByDateRange now data none none = data := by
    unfold filterByDateRange
    exact if_pos ⟨rfl, rfl⟩
  unfold getAggregatedStats
  rw [if_neg hne, hfb, if_neg hne]
  refine ⟨_, rfl, ?_⟩
  have hperm := (List.perm_insertionSort
    (fun a b : Agg => b.total ≤ a.total)
    ((firstDedup (data.map (keyOf g))).map (fun k =>
      let items := data.filter (fun r => decide (keyOf g r = k))
      Agg.mk k ((items.map Record.Expense).sum) items.length))).map Agg.total
  rw [show sortBy (fun a b : Agg => b.total ≤ a.total) = List.insertionSort _ from rfl,
    hperm.sum_eq, List.map_map]
  have hcov : ∀ r ∈ data, keyOf g r ∈ firstDedup (data.map (keyOf g)) :=
    fun r hr => mem_firstDedup.mpr (List.mem_map_of_mem _ hr)
  exact sum_filter_partition (keyOf g) Record.Expense _
    (nodup_firstDedup _) data hcov

/-- Witness for C1 at a concrete non-empty record list. -/
theorem getAggregatedStats_preserves_total_witness :
    ∃ l, getAggregatedStats someNow streakSample .category none none = .ok l ∧
      (l.map Agg.total).sum = (streakSample.map Record.Expense).sum :=
  getAggregatedStats_preserves_total someNow streakSample .category (by decide)

/-! ### Quantile threshold -/

/-- Claim C4: for a non-empty list of (strictly positive, per the canonical
record invariant) amounts and any quantile, the outlier threshold is the
element at index `floor(n * q)` of the ascending sort when that index is in
range, and the maximum observed amount otherwise; in particular, for the 100
amounts 10, 20, ..., 1000 and quantile 0.96 the threshold is 970, the value
at 0-indexed position 96. -/
theorem quantileThreshold_spec (amounts : List ℚ) (q : ℚ) (_hne : amounts ≠ [])
    (hpos : ∀ a ∈ amounts, 0 < a) :
    ((0 ≤ thresholdIndex amounts q ∧
        (thresholdIndex amounts q).toNat < (sortedExpenses amounts).length) →
      quantileThreshold amounts q
        = (sortedExpenses amounts).getD (thresholdIndex amounts q).toNat 0) ∧
    (¬(0 ≤ thresholdIndex amounts q ∧
        (thresholdIndex amounts q).toNat < (sortedExpenses amounts).length) →
      quantileThreshold amounts q = listMax (sortedExpenses amounts)) ∧
    quantileThreshold amounts100 (96 / 100) = 970 := by
  refine ⟨?_, ?_, ?_⟩
  · rintro ⟨h0, hlt⟩
    have hsome : (sortedExpenses amounts)[(thresholdIndex amounts q).toNat]?
        = some ((sortedExpenses amounts).getD (thresholdIndex amounts q).toNat 0) := by
      rw [List.getElem?_eq_getElem hlt, List.getD_eq_getElem _ 0 hlt]
    have hvpos : 0 < (sortedExpenses amounts).getD (thresholdIndex amounts q).toNat 0 := by
      refine hpos _ ?_
      have hmem : (sortedExpenses amounts).getD (thresholdIndex amounts q).toNat 0
          ∈ sortedExpenses amounts := by
        rw [List.getD_eq_getElem _ 0 hlt]
        exact List.getElem_mem hlt
      exact (List.perm_insertionSort _ amounts).mem_iff.mp hmem
    simp only [quantileThreshold, if_pos h0, hsome]
    exact if_neg (ne_of_gt hvpos)
  · intro hnot
    by_cases h0 : 0 ≤ thresholdIndex amounts q
    · have hge : (sortedExpenses amounts).length ≤ (thresholdIndex amounts q).toNat :=
        not_lt.mp (fun hlt => hnot ⟨h0, hlt⟩)
      simp only [quantileThreshold, if_pos h0, List.getElem?_eq_none hge]
    · simp only [quantileThreshold, if_neg h0]
  · have hlen : (sortedExpenses amounts100).length = 100 := by decide
    have hidx : thresholdIndex amounts100 (96 / 100) = 96 := by
      unfold thresholdIndex
      rw [hlen]
      norm_num [Rat.floor]
    simp only [quantileThreshold, hidx]
    decide

/-- Witness for C4: the hypotheses hold (and the threshold computes to 970)
for the concrete 100-amount scenario. -/
theorem quantileThreshold_spec_witness :
    ((0 ≤ thresholdIndex amounts100 (96 / 100) ∧
        (thresholdIndex amounts100 (96 / 100)).toNat < (sortedExpenses amounts100).length) →
      quantileThreshold amounts100 (96 / 100)
        = (sortedExpenses amounts100).getD (thresholdIndex amounts100 (96 / 100)).toNat 0) ∧
    (¬(0 ≤ thresholdIndex amounts100 (96 / 100) ∧
        (thresholdIndex amounts100 (96 / 100)).toNat < (sortedExpenses amounts100).length) →
      quantileThreshold amounts100 (96 / 100) = listMax (sortedExpenses amounts100)) ∧
    quantileThreshold amounts100 (96 / 100) = 970 :=
  quantileThreshold_spec amounts100 (96 / 100) (by decide) (by decide)

/-! ### Empty-data behaviour and the concrete streak scenario -/

/-- Claim C8 (counterexample): on the empty record list the aggregation does
not return an empty aggregate list — it returns the sentinel message
"No data available.". -/
theorem getAggregatedStats_empty_not_list :
    getAggregatedStats someNow [] .category none none = .msg "No data available." ∧
    getAggregatedStats someNow [] .category none none ≠ .ok [] := by
  refine ⟨rfl, ?_⟩
  decide

/-- Claim C8 (amended): on the empty record list every aggregation and
insight operation returns a well-defined absent result and never throws: the
aggregation returns the sentinel message "No data available." (and a date
range matching nothing returns "No data found for the specified date
range."), the correlation is not applicable (`none`), and there is no top
spending day. -/
theorem emptyData_wellDefined :
    (∀ (now : CalDate) (g : GroupBy) (sd ed : Option CalDate),
      getAggregatedStats now [] g sd ed = .msg "No data available.") ∧
    getAggregatedStats someNow twoDaySample .category
        (some ⟨2030, 0, 1⟩) (some ⟨2030, 11, 31⟩)
      = .msg "No data found for the specified date range." ∧
    calculateCorrelation [] = none ∧
    topSpendingDay [] = none := by
  refine ⟨fun now g sd ed => ?_, by decide, ?_, rfl⟩
  · unfold getAggregatedStats
    rw [if_pos rfl]
  · unfold calculateCorrelation
    rw [if_pos (by decide)]

/-- Claim C2: on four consecutive data-bearing days whose dominant mapped
categories are A, A, B, A, the streak detector reports streak length 2 for
category A, made of the first two days — not 3. -/
theorem categoryStreak_AABA :
    sortedDates streakSample
      = [⟨2024, 0, 1⟩, ⟨2024, 0, 2⟩, ⟨2024, 0, 3⟩, ⟨2024, 0, 4⟩] ∧
    dayDominant streakSample ⟨2024, 0, 1⟩ = some "A" ∧
    dayDominant streakSample ⟨2024, 0, 2⟩ = some "A" ∧
    dayDominant streakSample ⟨2024, 0, 3⟩ = some "B" ∧
    dayDominant streakSample ⟨2024, 0, 4⟩ = some "A" ∧
    (categoryStreak streakSample).maxStreak = 2 ∧
    (categoryStreak streakSample).maxStreakCategory = some "A" ∧
    (categoryStreak streakSample).streakDays = [⟨2024, 0, 1⟩, ⟨2024, 0, 2⟩] := by
  decide

/-! ### Streak-scan invariant -/

/-- A contiguous segment is in particular a sublist. -/
theorem SegmentOf.sublist {α : Type} {xs ys : List α} (h : SegmentOf xs ys) :
    List.Sublist xs ys := by
  rcases h with ⟨pre, suf, rfl⟩
  rw [List.append_assoc]
  exact (List.sublist_append_left xs suf).trans (List.sublist_append_right pre _)

/-- The invariant holds initially. -/
theorem streakInv_init (dom : CalDate → Option String) :
    StreakInv dom [] initStreak := by
  refine ⟨rfl, rfl, ⟨[], rfl⟩, ⟨[], [], rfl⟩, ?_, ?_⟩ <;> intro d hd <;> cases hd

/-- The invariant is preserved by one loop iteration. -/
theorem streakInv_step (dom : CalDate → Option String) {processed : List CalDate}
    {s : StreakState} (d : CalDate) (h : StreakInv dom processed s) :
    StreakInv dom (processed ++ [d]) (streakStep s d (dom d)) := by
  obtain ⟨hlen_t, hlen_s, ⟨pre, hpre⟩, ⟨p2, s2, hseg⟩, hdom_t, hdom_s⟩ := h
  unfold streakStep
  by_cases hc : dom d = s.lastCategory
  · rw [if_pos hc]
    refine ⟨?_, hlen_s, ⟨pre, ?_⟩, ⟨p2, s2 ++ [d], ?_⟩, ?_, hdom_s⟩
    · simp [hlen_t]
    · rw [hpre, List.append_assoc]
    · rw [hseg]
      simp
    · intro x hx
      rcases List.mem_append.mp hx with hx | hx
      · exact hdom_t x hx
      · rw [List.mem_singleton.mp hx]
        exact hc
  · rw [if_neg hc]
    by_cases hm : s.maxStreak < s.currentStreak
    · rw [if_pos hm]
      refine ⟨rfl, hlen_t, ⟨processed, rfl⟩, ⟨pre, [d], ?_⟩, ?_, hdom_t⟩
      · rw [hpre, List.append_assoc]
      · intro x hx
        rw [List.mem_singleton.mp hx]
    · rw [if_neg hm]
      refine ⟨rfl, hlen_s, ⟨processed, rfl⟩, ⟨p2, s2 ++ [d], ?_⟩, ?_, hdom_s⟩
      · rw [hseg]
        simp
      · intro x hx
        rw [List.mem_singleton.mp hx]

/-- The invariant is preserved by the whole loop. -/
theorem streakInv_scan (dom : CalDate → Option String) :
    ∀ (rest processed : List CalDate) (s : StreakState),
      StreakInv dom processed s →
        StreakInv dom (processed ++ rest) (scanStreak dom s rest)
  | [], processed, s, h => by simpa [scanStreak] using h
  | d :: rest, processed, s, h => by
      have h2 := streakInv_scan dom rest (processed ++ [d]) _ (streakInv_step dom d h)
      simpa [scanStreak, List.append_assoc] using h2

/-- The invariant is preserved by the final check. -/
theorem streakInv_finalize (dom : CalDate → Option String) {processed : List CalDate}
    {s : StreakState} (h : StreakInv dom processed s) :
    StreakInv dom processed (finalizeStreak s) := by
  obtain ⟨hlen_t, hlen_s, ⟨pre, hpre⟩, hseg, hdom_t, hdom_s⟩ := h
  unfold finalizeStreak
  by_cases hm : s.maxStreak < s.currentStreak
  · rw [if_pos hm]
    exact ⟨hlen_t, hlen_t, ⟨pre, hpre⟩, ⟨pre, [], by simp [hpre]⟩, hdom_t, hdom_t⟩
  · rw [if_neg hm]
    exact ⟨hlen_t, hlen_s, ⟨pre, hpre⟩, hseg, hdom_t, hdom_s⟩

/-- The distinct present days are chronologically sorted. -/
theorem sortedDates_pairwise_le (data : List Record) :
    (sortedDates data).Pairwise CalDate.le :=
  List.sorted_insertionSort CalDate.le _

/-- The distinct present days contain no duplicates. -/
theorem sortedDates_nodup (data : List Record) :
    (sortedDates data).Nodup :=
  ((List.perm_insertionSort CalDate.le _).nodup_iff).mpr (nodup_firstDedup _)

/-- Claim C9: the category-streak result is internally consistent — the
streak-day list has exactly `maxStreak` entries, it is a contiguous run of
the chronologically sorted distinct data-bearing days (hence strictly
increasing), and every listed day's dominant mapped category is the reported
streak category. -/
theorem categoryStreak_consistent (data : List Record) (_hne : data ≠ []) :
    (categoryStreak data).streakDays.length = (categoryStreak data).maxStreak ∧
    SegmentOf (categoryStreak data).streakDays (sortedDates data) ∧
    (categoryStreak data).streakDays.Pairwise CalDate.lt ∧
    ∀ d ∈ (categoryStreak data).streakDays,
      dayDominant data d = (categoryStreak data).maxStreakCategory := by
  have hinv : StreakInv (dayDominant data) (sortedDates data) (categoryStreak data) := by
    have h1 := streakInv_scan (dayDominant data) (sortedDates data) [] initStreak
      (streakInv_init (dayDominant data))
    have h2 := streakInv_finalize (dayDominant data) h1
    simpa [categoryStreak] using h2
  obtain ⟨_, hlen_s, _, hseg, _, hdom_s⟩ := hinv
  refine ⟨hlen_s, hseg, ?_, hdom_s⟩
  have hlt : (sortedDates data).Pairwise CalDate.lt :=
    ((sortedDates_pairwise_le data).and (sortedDates_nodup data)).imp (fun h => h)
  exact hlt.sublist (SegmentOf.sublist hseg)

/-- Witness for C9 at the concrete four-day sample. -/
theorem categoryStreak_consistent_witness :
    (categoryStreak streakSample).streakDays.length
        = (categoryStreak streakSample).maxStreak ∧
    SegmentOf (categoryStreak streakSample).streakDays (sortedDates streakSample) ∧
    (categoryStreak streakSample).streakDays.Pairwise CalDate.lt ∧
    ∀ d ∈ (categoryStreak streakSample).streakDays,
      dayDominant streakSample d = (categoryStreak streakSample).maxStreakCategory :=
  categoryStreak_consistent streakSample (by decide)

/-! ### Moving average -/

/-- A prefix sum of a list is the sum of its indexed entries (out-of-range
entries read the default `0` and contribute nothing). -/
theorem sum_take_eq_range (l : List ℚ) :
    ∀ n, (l.take n).sum = ∑ k ∈ Finset.range n, l.getD k 0 := by
  intro n
  induction n with
  | zero => simp
  | succ n ih =>
    rw [List.take_succ, List.sum_append, ih, Finset.sum_range_succ]
    congr 1
    cases h : l[n]? with
    | none => simp [List.getD_eq_getElem?_getD, h]
    | some v => simp [List.getD_eq_getElem?_getD, h]

/-- A window sum is the sum of the indexed entries it covers. -/
theorem sum_window_eq_range (l : List ℚ) (s n : ℕ) :
    ((l.drop s).take n).sum = ∑ k ∈ Finset.range n, l.getD (s + k) 0 := by
  rw [sum_take_eq_range]
  exact Finset.sum_congr rfl (fun k _ => by
    rw [List.getD_eq_getElem?_getD, List.getElem?_drop, ← List.getD_eq_getElem?_getD])

/-- Claim C5: over a strictly increasing daily-total series, the 10-day
trailing moving average is `null` at positions 0 through 8, and at every
position `i ≥ 9` equals the mean of the totals at positions `i - 9` through
`i`, which is strictly less than the raw total at position `i`. -/
theorem movingAvg_spec (values : List ℚ) (hmono : values.Pairwise (· < ·)) :
    ∀ i, i < values.length →
      ((i < 9 → (movingAvg values)[i]? = some none) ∧
       (9 ≤ i → ∃ m, (movingAvg values)[i]? = some (some m) ∧
          m = (∑ k ∈ Finset.range 10, values.getD (i - 9 + k) 0) / 10 ∧
          m < values.getD i 0)) := by
  intro i hi
  have hidx : (movingAvg values)[i]? = some (if i < 9 then none
      else some ((((values.drop (i - 9)).take (i + 1 - (i - 9))).sum) / 10)) := by
    unfold movingAvg
    rw [List.getElem?_map, List.getElem?_range hi, Option.map_some']
  constructor
  · intro h9
    rw [hidx, if_pos h9]
  · intro h9
    have hif : ¬i < 9 := not_lt.mpr h9
    have htake : i + 1 - (i - 9) = 10 := by omega
    have hmono' := List.pairwise_iff_get.mp hmono
    have hsum : (∑ k ∈ Finset.range 10, values.getD (i - 9 + k) 0)
        < 10 * values.getD i 0 := by
      have hbound : ∀ k ∈ Finset.range 10, values.getD (i - 9 + k) 0 ≤ values.getD i 0 := by
        intro k hk
        have hk10 : k < 10 := Finset.mem_range.mp hk
        have hp : i - 9 + k ≤ i := by omega
        have hplt : i - 9 + k < values.length := lt_of_le_of_lt hp hi
        rcases lt_or_eq_of_le hp with hlt | heq
        · have := hmono' ⟨i - 9 + k, hplt⟩ ⟨i, hi⟩ hlt
          rw [List.getD_eq_getElem values 0 hplt, List.getD_eq_getElem values 0 hi]
          exact le_of_lt this
        · rw [heq]
      have hstrict : ∃ k ∈ Finset.range 10, values.getD (i - 9 + k) 0 < values.getD i 0 := by
        refine ⟨0, Finset.mem_range.mpr (by omega), ?_⟩
        have hp : i - 9 + 0 < i := by omega
        have hplt : i - 9 + 0 < values.length := lt_trans hp hi
        have := hmono' ⟨i - 9 + 0, hplt⟩ ⟨i, hi⟩ hp
        rw [List.getD_eq_getElem values 0 hplt, List.getD_eq_getElem values 0 hi]
        exact this
      calc (∑ k ∈ Finset.range 10, values.getD (i - 9 + k) 0)
          < ∑ _k ∈ Finset.range 10, values.getD i 0 :=
            Finset.sum_lt_sum hbound hstrict
        _ = 10 * values.getD i 0 := by
            rw [Finset.sum_const, Finset.card_range, nsmul_eq_mul]
            norm_num
    refine ⟨(((values.drop (i - 9)).take (i + 1 - (i - 9))).sum) / 10, ?_, ?_, ?_⟩
    · rw [hidx, if_neg hif]
    · rw [htake, sum_window_eq_range]
    · rw [htake, sum_window_eq_range]
      rw [div_lt_iff₀ (by norm_num : (0 : ℚ) < 10)]
      calc (∑ k ∈ Finset.range 10, values.getD (i - 9 + k) 0)
          < 10 * values.getD i 0 := hsum
        _ = values.getD i 0 * 10 := by ring

/-- Witness for C5 at position 9 of a concrete strictly increasing series. -/
theorem movingAvg_spec_witness :
    (9 < 9 → (movingAvg increasingSeries)[9]? = some none) ∧
    (9 ≤ 9 → ∃ m, (movingAvg increasingSeries)[9]? = some (some m) ∧
      m = (∑ k ∈ Finset.range 10, increasingSeries.getD (9 - 9 + k) 0) / 10 ∧
      m < increasingSeries.getD 9 0) :=
  movingAvg_spec increasingSeries (by decide) 9 (by decide)

/-! ### Pearson correlation -/

/-- Cauchy–Schwarz for lists of pairs, squared form. -/
theorem list_cauchy_schwarz :
    ∀ e : List (ℚ × ℚ),
      ((e.map fun p => p.1 * p.2).sum) ^ 2
        ≤ (e.map fun p => p.1 * p.1).sum * (e.map fun p => p.2 * p.2).sum
  | [] => by simp
  | (a, b) :: t => by
      have IH := list_cauchy_schwarz t
      have hP : 0 ≤ (t.map fun p => p.1 * p.1).sum :=
        List.sum_nonneg (by
          intro x hx
          rcases List.mem_map.mp hx with ⟨p, _, rfl⟩
          exact mul_self_nonneg _)
      have hQ : 0 ≤ (t.map fun p => p.2 * p.2).sum :=
        List.sum_nonneg (by
          intro x hx
          rcases List.mem_map.mp hx with ⟨p, _, rfl⟩
          exact mul_self_nonneg _)
      simp only [List.map_cons, List.sum_cons]
      rcases eq_or_lt_of_le hQ with hQ0 | hQpos
      · have hS : (t.map fun p => p.1 * p.2).sum = 0 := by
          nlinarith [sq_nonneg ((t.map fun p => p.1 * p.2).sum)]
        rw [hS, ← hQ0]
        nlinarith [mul_nonneg hP (mul_self_nonneg b)]
      · nlinarith [sq_nonneg (a * (t.map fun p => p.2 * p.2).sum
            - b * (t.map fun p => p.1 * p.2).sum),
          mul_nonneg (sub_nonneg.mpr IH)
            (add_nonneg (mul_self_nonneg b) hQ), hQpos]

/-- Expansion of the centered cross sum. -/
theorem sum_map_centered_mul (l : List (ℚ × ℚ)) (c sx sy : ℚ) :
    ((l.map fun p => (c * p.1 - sx, c * p.2 - sy)).map fun p => p.1 * p.2).sum
      = c * c * (l.map fun p => p.1 * p.2).sum - c * sy * (l.map Prod.fst).sum
        - c * sx * (l.map Prod.snd).sum + l.length * (sx * sy) := by
  induction l with
  | nil => simp
  | cons p t ih =>
    simp only [List.map_cons, List.sum_cons, List.length_cons, ih]
    push_cast
    ring

/-- Expansion of the centered square sum in the first coordinate. -/
theorem sum_map_centered_sq_fst (l : List (ℚ × ℚ)) (c sx sy : ℚ) :
    ((l.map fun p => (c * p.1 - sx, c * p.2 - sy)).map fun p => p.1 * p.1).sum
      = c * c * (l.map fun p => p.1 * p.1).sum
        - 2 * c * sx * (l.map Prod.fst).sum + l.length * (sx * sx) := by
  induction l with
  | nil => simp
  | cons p t ih =>
    simp only [List.map_cons, List.sum_cons, List.length_cons, ih]
    push_cast
    ring

/-- Expansion of the centered square sum in the second coordinate. -/
theorem sum_map_centered_sq_snd (l : List (ℚ × ℚ)) (c sx sy : ℚ) :
    ((l.map fun p => (c * p.1 - sx, c * p.2 - sy)).map fun p => p.2 * p.2).sum
      = c * c * (l.map fun p => p.2 * p.2).sum
        - 2 * c * sy * (l.map Prod.snd).sum + l.length * (sy * sy) := by
  induction l with
  | nil => simp
  | cons p t ih =>
    simp only [List.map_cons, List.sum_cons, List.length_cons, ih]
    push_cast
    ring

/-- Covariance form of Cauchy–Schwarz: the Pearson numerator squared is at
most the product of the two variance terms. -/
theorem centered_cs (pl : List (ℚ × ℚ)) :
    ((pl.length : ℚ) * ((pl.map fun p => p.1 * p.2).sum)
        - (pl.map Prod.fst).sum * (pl.map Prod.snd).sum) ^ 2
      ≤ ((pl.length : ℚ) * ((pl.map fun p => p.1 * p.1).sum)
          - (pl.map Prod.fst).sum * (pl.map Prod.fst).sum)
        * ((pl.length : ℚ) * ((pl.map fun p => p.2 * p.2).sum)
            - (pl.map Prod.snd).sum * (pl.map Prod.snd).sum) := by
  rcases Nat.eq_zero_or_pos pl.length with h0 | hpos
  · rw [List.eq_nil_of_length_eq_zero h0]
    simp
  · have hn : (0 : ℚ) < (pl.length : ℚ) := by exact_mod_cast hpos
    have hcs := list_cauchy_schwarz (pl.map fun p =>
      ((pl.length : ℚ) * p.1 - (pl.map Prod.fst).sum,
       (pl.length : ℚ) * p.2 - (pl.map Prod.snd).sum))
    rw [sum_map_centered_mul, sum_map_centered_sq_fst, sum_map_centered_sq_snd] at hcs
    refine le_of_mul_le_mul_left ?_ (mul_pos hn hn)
    calc (pl.length : ℚ) * (pl.length : ℚ)
          * (((pl.length : ℚ) * ((pl.map fun p => p.1 * p.2).sum)
              - (pl.map Prod.fst).sum * (pl.map Prod.snd).sum) ^ 2)
        = ((pl.length : ℚ) * (pl.length : ℚ) * ((pl.map fun p => p.1 * p.2).sum)
            - (pl.length : ℚ) * ((pl.map Prod.snd).sum) * ((pl.map Prod.fst).sum)
            - (pl.length : ℚ) * ((pl.map Prod.fst).sum) * ((pl.map Prod.snd).sum)
            + (pl.length : ℚ) * ((pl.map Prod.fst).sum * (pl.map Prod.snd).sum)) ^ 2 := by
          ring
      _ ≤ ((pl.length : ℚ) * (pl.length : ℚ) * ((pl.map fun p => p.1 * p.1).sum)
            - 2 * (pl.length : ℚ) * ((pl.map Prod.fst).sum) * ((pl.map Prod.fst).sum)
            + (pl.length : ℚ) * ((pl.map Prod.fst).sum * (pl.map Prod.fst).sum))
          * ((pl.length : ℚ) * (pl.length : ℚ) * ((pl.map fun p => p.2 * p.2).sum)
            - 2 * (pl.length : ℚ) * ((pl.map Prod.snd).sum) * ((pl.map Prod.snd).sum)
            + (pl.length : ℚ) * ((pl.map Prod.snd).sum * (pl.map Prod.snd).sum)) := hcs
      _ = (pl.length : ℚ) * (pl.length : ℚ)
          * (((pl.length : ℚ) * ((pl.map fun p => p.1 * p.1).sum)
              - (pl.map Prod.fst).sum * (pl.map Prod.fst).sum)
            * ((pl.length : ℚ) * ((pl.map fun p => p.2 * p.2).sum)
                - (pl.map Prod.snd).sum * (pl.map Prod.snd).sum)) := by
          ring

/-- The numerator and `denomVal` unfold to the pair-list sums. -/
theorem corrNumerator_sq_le_denomVal (data : List Record) :
    corrNumerator data ^ 2 ≤ corrDenomVal data :=
  centered_cs (corrPairs data)

/-- Claim C3: with at least 2 data-bearing days the Pearson correlation is a
value in [-1, 1], equal to 0 whenever `denomVal ≤ 0`; with fewer than 2 such
days it is not applicable (`none`), never zero and never an error. -/
theorem calculateCorrelation_spec (data : List Record) :
    ((corrEntries data).length < 2 → calculateCorrelation data = none) ∧
    (2 ≤ (corrEntries data).length →
      ∃ r : ℝ, calculateCorrelation data = some r ∧ -1 ≤ r ∧ r ≤ 1 ∧
        (corrDenomVal data ≤ 0 → r = 0)) := by
  constructor
  · intro h
    unfold calculateCorrelation
    rw [if_pos h]
  · intro h
    have hnot : ¬(corrEntries data).length < 2 := not_lt.mpr h
    unfold calculateCorrelation
    rw [if_neg hnot]
    by_cases hd : corrDenomVal data ≤ 0
    · rw [if_pos hd]
      exact ⟨0, rfl, by norm_num, by norm_num, fun _ => rfl⟩
    · rw [if_neg hd]
      have hdpos : (0 : ℚ) < corrDenomVal data := not_le.mp hd
      have hDpos : (0 : ℝ) < (corrDenomVal data : ℝ) := by exact_mod_cast hdpos
      have hsq : ((corrNumerator data : ℝ)) ^ 2 ≤ (corrDenomVal data : ℝ) := by
        exact_mod_cast corrNumerator_sq_le_denomVal data
      have hs : (0 : ℝ) < Real.sqrt (corrDenomVal data : ℝ) := Real.sqrt_pos.mpr hDpos
      have habs : |(corrNumerator data : ℝ)| ≤ Real.sqrt (corrDenomVal data : ℝ) := by
        rw [← Real.sqrt_sq_eq_abs]
        exact Real.sqrt_le_sqrt hsq
      refine ⟨_, rfl, ?_, ?_, fun hc => absurd hc hd⟩
      · rw [le_div_iff₀ hs]
        have := (abs_le.mp habs).1
        linarith
      · rw [div_le_one hs]
        exact (abs_le.mp habs).2

/-- Witness for C3 at a concrete two-day record list. -/
theorem calculateCorrelation_spec_witness :
    ∃ r : ℝ, calculateCorrelation twoDaySample = some r ∧ -1 ≤ r ∧ r ≤ 1 ∧
      (corrDenomVal twoDaySample ≤ 0 → r = 0) :=
  (calculateCorrelation_spec twoDaySample).2 (by decide)

end Expenses
